import Mathlib

/-!
Shallow embedding of `src/crawl.py`, an FTP/SFTP recursive mirroring tool, and
proofs about its sync decision, subprocess registry, watch loop, error
propagation and transfer-command construction.

Strings coming from Python are modelled as `List Char`; Python's `str.split(',')`
and `str.endswith` are modelled by `py_split_comma` and `py_endswith` below.
-/

/-- Python `s.split(',')`: split on every comma; the empty string yields `[""]`,
a trailing comma yields a final empty entry. -/
def py_split_comma : List Char → List (List Char)
  | [] => [[]]
  | c :: cs =>
    if c = ',' then [] :: py_split_comma cs
    else
      match py_split_comma cs with
      | [] => [[c]]
      | p :: ps => (c :: p) :: ps

/-- Python `s.endswith(suffix)`: the suffix relation on strings. -/
def py_endswith (s suffix : List Char) : Bool := suffix.isSuffixOf s

/-- Outcome of the per-file sync decision in `download_file` (crawl.py lines
34-49): either the function returns early (Skip) or it falls through to the
aria2c invocation (Download). -/
inductive Decision where
  | Skip
  | Download
deriving DecidableEq

/-- crawl.py line 35: `if filter_extension and not any(map(lambda x:
item_filename.endswith(x), filter_extension.split(',')))`. True exactly when a
non-empty filter excludes the filename. -/
def filtered_out (filter_extension item_filename : List Char) : Bool :=
  !filter_extension.isEmpty &&
    !((py_split_comma filter_extension).any (fun x => py_endswith item_filename x))

/-- The decision logic of `download_file` (crawl.py lines 31-49).
`local_file = none` models `os.path.exists(local_file_path)` returning False;
`local_file = some n` models an existing local file of size `n`
(`os.path.getsize`). The branch order mirrors the source: extension filter
first (line 35), then existence (line 42), then size/force (line 45); every
fall-through path reaches the aria2c invocation. -/
def download_file_decision (item_filename : List Char) (item_size : Nat)
    (local_file : Option Nat) (force : Bool) (filter_extension : List Char) : Decision :=
  if filtered_out filter_extension item_filename then Decision.Skip
  else
    match local_file with
    | some local_file_size =>
      if local_file_size == item_size && !force then Decision.Skip
      else Decision.Download
    | none => Decision.Download

/-- The two protocols accepted by `--protocol` (argparse choices, crawl.py line 118). -/
inductive Protocol where
  | ftp
  | sftp
deriving DecidableEq

/-- crawl.py lines 51-55: the URL handed to aria2c, built from the protocol
scheme, host, port and remote path only. -/
def remote_url (protocol : Protocol) (host : String) (port : Nat)
    (remote_path : String) : String :=
  match protocol with
  | Protocol.sftp => "sftp://" ++ host ++ ":" ++ toString port ++ remote_path
  | Protocol.ftp => "ftp://" ++ host ++ ":" ++ toString port ++ remote_path

/-- crawl.py lines 57-67: the argument vector of the aria2c subprocess. -/
def aria2c_command (protocol : Protocol)
    (remote_path local_dir item_filename user password host : String)
    (port max_connections : Nat) : List String :=
  [ "aria2c",
    "--download-result=hide",
    "--file-allocation=none",
    "--ftp-user=" ++ user,
    "--ftp-passwd=" ++ password,
    remote_url protocol host port remote_path,
    "-x" ++ toString max_connections,
    "-d", local_dir,
    "-o", item_filename ]

/-- One subprocess handle as `stop_all_subprocesses` sees it: `running` models
`proc.poll() is None`; `terminate_delay` models the seconds the process would
take to exit after `terminate()`, compared against the `wait(timeout=5)` grace
period. -/
structure Proc where
  running : Bool
  terminate_delay : Nat
deriving DecidableEq

/-- The `wait` timeout in `stop_all_subprocesses` (crawl.py line 15). -/
def grace_period : Nat := 5

/-- What the loop body of `stop_all_subprocesses` (crawl.py lines 11-17) does
to one handle. -/
inductive StopAction where
  | noAction
  | terminated
  | killed
deriving DecidableEq

/-- crawl.py lines 12-17: skip finished processes; `terminate()` the running
ones and `wait(timeout=5)`; on `TimeoutExpired`, `kill()`. -/
def stop_action (p : Proc) : StopAction :=
  if p.running then
    if p.terminate_delay ≤ grace_period then StopAction.terminated
    else StopAction.killed
  else StopAction.noAction

/-- The handle's state after `stop_all_subprocesses` dealt with it: a running
process has been terminated or killed either way. -/
def stop_proc (p : Proc) : Proc :=
  if p.running then { p with running := false } else p

/-- crawl.py lines 9-18: iterate the global `subprocesses` list. -/
def stop_all_subprocesses (ps : List Proc) : List Proc := ps.map stop_proc

/-- crawl.py lines 21-24: the SIGINT/SIGTERM handler stops all subprocesses and
calls `sys.exit(0)`. Returns the final handle states and the exit status. -/
def signal_handler (ps : List Proc) : List Proc × Nat :=
  (stop_all_subprocesses ps, 0)

/-- Worker-pool transfer events: worker `w` starts executing the transfer of
task `tid` (the `subprocess.Popen` plus `subprocesses.append` at crawl.py lines
70-71), or its blocking `process.wait()` (line 72) returns. -/
inductive Ev where
  | start (w tid : Nat)
  | finish (w tid : Nat)
deriving DecidableEq

/-- Task ids appended to the global `subprocesses` list along a trace: one
entry per `start` (line 71); no event ever removes an entry. -/
def started_tids (tr : List Ev) : List Nat :=
  tr.filterMap fun e =>
    match e with
    | Ev.start _ tid => some tid
    | Ev.finish _ _ => none

/-- Task ids whose transfer has finished along a trace. -/
def finished_tids (tr : List Ev) : List Nat :=
  tr.filterMap fun e =>
    match e with
    | Ev.start _ tid => none
    | Ev.finish _ tid => some tid

/-- The contents of the global `subprocesses` registry after a trace. -/
def registry (tr : List Ev) : List Nat := started_tids tr

/-- Number of transfers still in flight after a trace: started and not yet
finished. -/
def running_count (tr : List Ev) : Nat :=
  (started_tids tr).length - (finished_tids tr).length

/-- One scheduling step of the ThreadPoolExecutor with a fixed worker list:
`busy w = some tid` when worker `w` is blocked in `process.wait()` on task
`tid`. A worker can start a task only when idle and finish only the task it is
running. -/
def pool_step (busy : List (Option Nat)) : Ev → Option (List (Option Nat))
  | Ev.start w tid =>
    match busy[w]? with
    | some none => some (busy.set w (some tid))
    | _ => none
  | Ev.finish w tid =>
    match busy[w]? with
    | some (some t) => if t = tid then some (busy.set w none) else none
    | _ => none

/-- Run a trace through the pool scheduler from a worker state. -/
def pool_run : List (Option Nat) → List Ev → Option (List (Option Nat))
  | busy, [] => some busy
  | busy, e :: tr =>
    match pool_step busy e with
    | some b2 => pool_run b2 tr
    | none => none

/-- A trace is a valid execution of `ThreadPoolExecutor(max_workers := n)`:
the scheduler accepts every event starting from `n` idle workers. -/
def pool_trace (n : Nat) (tr : List Ev) : Prop :=
  (pool_run (List.replicate n none) tr).isSome = true

/-- Number of busy workers in a worker state. -/
def busy_count (busy : List (Option Nat)) : Nat := (busy.filterMap id).length

/-- Python `os.path.join(dir, name)` for a relative entry name. -/
def py_path_join (dir name : List Char) : List Char := dir ++ '/' :: name

/-- A transfer task as handed to `executor.submit(download_file, ...)`
(crawl.py line 94): the remote path and the remote size. -/
structure STask where
  remote_path : List Char
  size : Nat
deriving DecidableEq

mutual
/-- A remote entry as `ftp.mlsd` exposes it: a file with its size, or a
directory. `ok = false` on a directory models `ftp.cwd`/`ftp.mlsd` raising a
listing error when that directory is traversed. -/
inductive RemoteNode where
  | file (name : List Char) (size : Nat)
  | dir (name : List Char) (ok : Bool) (children : RemoteForest)

/-- A directory listing: the ordered entries of one directory. -/
inductive RemoteForest where
  | nil
  | cons (n : RemoteNode) (ns : RemoteForest)
end

mutual
/-- The body of `ftp_recursive_download`'s loop (crawl.py lines 83-94) for one
entry of `remote_dir`: a directory is recursed into — and raises if its listing
fails — a file becomes a submitted task. No try/except anywhere in the
recursion: an error in a subtree propagates out. -/
def walk_node (remote_dir : List Char) : RemoteNode → Except (List Char) (List STask)
  | RemoteNode.file name size =>
    Except.ok [STask.mk (py_path_join remote_dir name) size]
  | RemoteNode.dir name ok children =>
    if ok then walk_forest (py_path_join remote_dir name) children
    else Except.error (py_path_join remote_dir name)

/-- The `for item in ftp.mlsd()` loop (crawl.py line 83): entries are processed
in order; a raised error stops the loop and propagates. -/
def walk_forest (remote_dir : List Char) : RemoteForest → Except (List Char) (List STask)
  | RemoteForest.nil => Except.ok []
  | RemoteForest.cons n ns =>
    match walk_node remote_dir n with
    | Except.error e => Except.error e
    | Except.ok ts =>
      match walk_forest remote_dir ns with
      | Except.error e => Except.error e
      | Except.ok ts2 => Except.ok (ts ++ ts2)
end

mutual
/-- Is there a directory in this subtree whose listing raises when the subtree
is traversed? -/
def node_has_bad_dir : RemoteNode → Bool
  | RemoteNode.file _ _ => false
  | RemoteNode.dir _ ok children => !ok || forest_has_bad_dir children

def forest_has_bad_dir : RemoteForest → Bool
  | RemoteForest.nil => false
  | RemoteForest.cons n ns => node_has_bad_dir n || forest_has_bad_dir ns
end

/-- The remote tree at `--remote-dir` as the top-level call sees it: whether
listing the root succeeds, and its entries. -/
structure RemoteRoot where
  ok : Bool
  children : RemoteForest

/-- The top-level `ftp_recursive_download(ftp, args.remote_dir, ...)` call
(crawl.py lines 76-94 at the root). -/
def ftp_walk (remote_dir : List Char) (root : RemoteRoot) :
    Except (List Char) (List STask) :=
  if root.ok then walk_forest remote_dir root.children
  else Except.error remote_dir

/-- The `try`/`except` around the FTP run in `main` (crawl.py lines 172-199):
a successful pass leaves the subprocess registry alone; a raised error runs
`stop_all_subprocesses` and is re-raised (the `raise` at line 199), so the
process terminates with the exception. -/
def main_ftp (remote_dir : List Char) (root : RemoteRoot) (procs : List Proc) :
    Except (List Char) (List STask) × List Proc :=
  match ftp_walk remote_dir root with
  | Except.ok ts => (Except.ok ts, procs)
  | Except.error e => (Except.error e, stop_all_subprocesses procs)

/-- Terminal state of a transfer task. -/
inductive TStatus where
  | Completed
  | Failed
deriving DecidableEq

/-- A task's terminal state from its aria2c exit code (crawl.py line 73). -/
def task_status (code : Int) : TStatus :=
  if code = 0 then TStatus.Completed else TStatus.Failed

/-- One full FTP pass at the task level: the walk submits one `download_file`
task per file (crawl.py line 94); each task blocks on its aria2c process and
ends with that process's exit code (lines 70-73); the code is returned and
never inspected — `executor.submit`'s future is dropped — so it only fixes the
task's terminal status. -/
def run_pass (exit_code : STask → Int) (remote_dir : List Char) (root : RemoteRoot) :
    Except (List Char) (List (STask × TStatus)) :=
  (ftp_walk remote_dir root).map fun ts => ts.map fun t => (t, task_status (exit_code t))

/-- Events of the watch loop (crawl.py lines 178-187): a pass begins (the
`Scanning...` print at line 179), a task is submitted to that pass's executor
(line 94), a task reaches its terminal state (the `process.wait()` at line 72
returns; `failed` records a nonzero exit code), and the watch-mode sleep
(line 185). -/
inductive PhEv where
  | passStart (p : Nat)
  | submitTask (p : Nat) (tid : Nat)
  | taskEnd (p : Nat) (tid : Nat) (failed : Bool)
  | sleepEv (p : Nat)
deriving DecidableEq

/-- Does this event mark the terminal state of task `tid` of pass `p`? -/
def is_end_for (p tid : Nat) : PhEv → Bool
  | PhEv.taskEnd q t _ => q == p && t == tid
  | _ => false

/-- Modelled from the spec: the Worker Pool barrier of §4.4. The library
semantics of the `with ThreadPoolExecutor(...)` block (crawl.py lines 180-181)
— `shutdown(wait := True)` on exit, code not under src/ — guarantee that the
block's event list already contains the terminal event of every task submitted
in it. -/
def pass_complete (inner : List PhEv) : Bool :=
  inner.all fun e =>
    match e with
    | PhEv.submitTask p tid => inner.any (is_end_for p tid)
    | _ => true

/-- One iteration of the watch loop (crawl.py lines 178-186): the pass banner,
then the events of the pass's own freshly created executor's with-block, then
the watch sleep. -/
def pass_segment (p : Nat) (inner : List PhEv) : List PhEv :=
  PhEv.passStart p :: inner ++ [PhEv.sleepEv p]

/-- The whole watch-mode run: one segment per pass, in order: the loop body
finishes pass `p` — including the with-block barrier — before it sleeps and
begins pass `p+1`. -/
def watch_trace (inners : List (List PhEv)) : List PhEv :=
  (inners.enum.map fun pe => pass_segment pe.1 pe.2).flatten

/-- Event `e1` occurs strictly before event `e2` in the trace `tr`. -/
def Precedes (e1 e2 : PhEv) (tr : List PhEv) : Prop :=
  ∃ i j : Nat, i < j ∧ tr[i]? = some e1 ∧ tr[j]? = some e2

/-- C1: for a file that passes the extension filter, an existing local file of
equal size with force off is skipped; a size mismatch, or force on, downloads. -/
theorem sync_decision_size_and_force (item_filename filter_extension : List Char)
    (item_size local_size : Nat)
    (hf : filtered_out filter_extension item_filename = false) :
    (local_size = item_size →
      download_file_decision item_filename item_size (some local_size) false filter_extension
        = Decision.Skip)
    ∧ (local_size ≠ item_size → ∀ force : Bool,
      download_file_decision item_filename item_size (some local_size) force filter_extension
        = Decision.Download)
    ∧ (download_file_decision item_filename item_size (some local_size) true filter_extension
        = Decision.Download) := by
  refine ⟨fun h => ?_, fun h force => ?_, ?_⟩ <;>
    simp [download_file_decision, hf]
  · exact h
  · intro h2
    exact absurd h2 h

/-- Witness for `sync_decision_size_and_force` at filename `a.txt`, filter
`txt`, remote size 5, local size 5. -/
theorem sync_decision_size_and_force_witness :
    download_file_decision "a.txt".data 5 (some 5) false "txt".data = Decision.Skip :=
  (sync_decision_size_and_force "a.txt".data "txt".data 5 5 (by decide)).1 rfl

/-- C2: a non-empty filter matching none of a filename's suffixes forces Skip,
whatever the local state and the force flag are — the filter check precedes the
existence and size checks. -/
theorem filter_skip_precedes_size_check (item_filename filter_extension : List Char)
    (hne : filter_extension ≠ [])
    (hnomatch : (py_split_comma filter_extension).any
      (fun x => py_endswith item_filename x) = false) :
    ∀ (item_size : Nat) (local_file : Option Nat) (force : Bool),
      download_file_decision item_filename item_size local_file force filter_extension
        = Decision.Skip := by
  intro item_size local_file force
  have hfo : filtered_out filter_extension item_filename = true := by
    simp [filtered_out, hnomatch, List.isEmpty_iff, hne]
  simp [download_file_decision, hfo]

/-- Witness for `filter_skip_precedes_size_check` at filename `a.bin`, filter
`txt`, with no local copy and force on. -/
theorem filter_skip_precedes_size_check_witness :
    download_file_decision "a.bin".data 10 none true "txt".data = Decision.Skip :=
  filter_skip_precedes_size_check "a.bin".data "txt".data (by decide) (by decide) 10 none true

/-- C3 counterexample: with filter `txt`, filename `a.bin` and no local file the
decision is Skip, not Download — the extension filter is applied even when the
local file does not exist, refuting "Download regardless of the extension
filter". -/
theorem no_local_file_counterexample :
    download_file_decision "a.bin".data 10 none false "txt".data = Decision.Skip := by
  decide

/-- C3 amended: when the extension filter does not exclude the filename and the
local file does not exist, the decision is Download, regardless of force. -/
theorem no_local_file_downloads (item_filename filter_extension : List Char)
    (item_size : Nat) (force : Bool)
    (hf : filtered_out filter_extension item_filename = false) :
    download_file_decision item_filename item_size none force filter_extension
      = Decision.Download := by
  simp [download_file_decision, hf]

/-- Witness for `no_local_file_downloads` at filename `a.txt`, filter `txt`. -/
theorem no_local_file_downloads_witness :
    download_file_decision "a.txt".data 10 none false "txt".data = Decision.Download :=
  no_local_file_downloads "a.txt".data "txt".data 10 false (by decide)

/-- C10: a non-empty filter containing an empty entry (e.g. a trailing comma)
matches every filename, so the filter step never causes a Skip: the decision is
the same as with no filter at all. -/
theorem empty_filter_entry_matches_all (filter_extension : List Char)
    (hne : filter_extension ≠ []) (hempty : [] ∈ py_split_comma filter_extension) :
    ∀ (item_filename : List Char) (item_size : Nat) (local_file : Option Nat) (force : Bool),
      filtered_out filter_extension item_filename = false ∧
      download_file_decision item_filename item_size local_file force filter_extension
        = download_file_decision item_filename item_size local_file force [] := by
  intro item_filename item_size local_file force
  have hany : (py_split_comma filter_extension).any
      (fun x => py_endswith item_filename x) = true := by
    refine List.any_eq_true.mpr ⟨[], hempty, ?_⟩
    simp [py_endswith, List.isSuffixOf]
  have hfo : filtered_out filter_extension item_filename = false := by
    simp [filtered_out, hany]
  refine ⟨hfo, ?_⟩
  have hfo2 : filtered_out [] item_filename = false := by
    simp [filtered_out]
  simp [download_file_decision, hfo, hfo2]

/-- Witness for `empty_filter_entry_matches_all` at filter `txt,` (trailing
comma) and filename `a.bin`, which the entry `txt` alone would exclude. -/
theorem empty_filter_entry_matches_all_witness :
    filtered_out "txt,".data "a.bin".data = false ∧
    download_file_decision "a.bin".data 10 none false "txt,".data
      = download_file_decision "a.bin".data 10 none false [] :=
  empty_filter_entry_matches_all "txt,".data (by decide) (by decide) "a.bin".data 10 none false

/-- C9: in the aria2c argument vector, the URL (element 5) is exactly
`remote_url` — a function of scheme, host, port and path only, so it does not
change when the credentials change — while the credentials travel as the
explicit `--ftp-user=`/`--ftp-passwd=` parameters (elements 3 and 4). -/
theorem credentials_not_in_url (protocol : Protocol)
    (remote_path local_dir item_filename user password host : String)
    (port max_connections : Nat) :
    (aria2c_command protocol remote_path local_dir item_filename user password host
        port max_connections).get? 5 = some (remote_url protocol host port remote_path)
    ∧ (∀ user2 password2 : String,
        (aria2c_command protocol remote_path local_dir item_filename user2 password2 host
            port max_connections).get? 5
          = (aria2c_command protocol remote_path local_dir item_filename user password host
              port max_connections).get? 5)
    ∧ (aria2c_command protocol remote_path local_dir item_filename user password host
        port max_connections).get? 3 = some ("--ftp-user=" ++ user)
    ∧ (aria2c_command protocol remote_path local_dir item_filename user password host
        port max_connections).get? 4 = some ("--ftp-passwd=" ++ password)
    ∧ remote_url Protocol.ftp host port remote_path
        = "ftp://" ++ host ++ ":" ++ toString port ++ remote_path :=
  ⟨rfl, fun _ _ => rfl, rfl, rfl, rfl⟩

theorem busy_count_replicate (n : Nat) : busy_count (List.replicate n none) = 0 := by
  induction n with
  | zero => rfl
  | succ n ih => simpa [busy_count, List.replicate_succ, List.filterMap_cons] using ih

theorem busy_count_le (busy : List (Option Nat)) : busy_count busy ≤ busy.length := by
  simpa [busy_count] using List.length_filterMap_le id busy

theorem busy_count_set_some (busy : List (Option Nat)) (w tid : Nat)
    (h : busy[w]? = some none) :
    busy_count (busy.set w (some tid)) = busy_count busy + 1 := by
  induction busy generalizing w with
  | nil => simp at h
  | cons b bs ih =>
    cases w with
    | zero =>
      simp at h
      subst h
      simp [busy_count, List.filterMap_cons]
    | succ w =>
      simp at h
      have := ih w h
      cases b <;> simpa [busy_count, List.filterMap_cons] using this

theorem busy_count_set_none (busy : List (Option Nat)) (w t : Nat)
    (h : busy[w]? = some (some t)) :
    busy_count busy = busy_count (busy.set w none) + 1 := by
  induction busy generalizing w with
  | nil => simp at h
  | cons b bs ih =>
    cases w with
    | zero =>
      simp at h
      subst h
      simp [busy_count, List.filterMap_cons]
    | succ w =>
      simp at h
      have := ih w h
      cases b <;> simpa [busy_count, List.filterMap_cons] using this

theorem pool_step_length (busy b2 : List (Option Nat)) (e : Ev)
    (h : pool_step busy e = some b2) : b2.length = busy.length := by
  cases e with
  | start w tid =>
    cases hg : busy[w]? with
    | none => simp [pool_step, hg] at h
    | some o =>
      cases o with
      | none =>
        simp [pool_step, hg] at h
        subst h
        simp
      | some t => simp [pool_step, hg] at h
  | finish w tid =>
    cases hg : busy[w]? with
    | none => simp [pool_step, hg] at h
    | some o =>
      cases o with
      | none => simp [pool_step, hg] at h
      | some t =>
        by_cases ht : t = tid
        · simp [pool_step, hg, ht] at h
          subst h
          simp
        · simp [pool_step, hg, ht] at h

theorem pool_run_length (tr : List Ev) :
    ∀ busy b2 : List (Option Nat), pool_run busy tr = some b2 → b2.length = busy.length := by
  induction tr with
  | nil =>
    intro busy b2 h
    simp [pool_run] at h
    subst h
    rfl
  | cons e tr ih =>
    intro busy b2 h
    cases hs : pool_step busy e with
    | none => simp [pool_run, hs] at h
    | some b1 =>
      simp [pool_run, hs] at h
      calc b2.length = b1.length := ih b1 b2 h
        _ = busy.length := pool_step_length busy b1 e hs

theorem pool_run_take (tr : List Ev) :
    ∀ busy b2 : List (Option Nat), pool_run busy tr = some b2 →
      ∀ k : Nat, ∃ bk, pool_run busy (tr.take k) = some bk := by
  induction tr with
  | nil =>
    intro busy b2 _ k
    exact ⟨busy, by simp [pool_run]⟩
  | cons e tr ih =>
    intro busy b2 h k
    cases hs : pool_step busy e with
    | none => simp [pool_run, hs] at h
    | some b1 =>
      simp [pool_run, hs] at h
      cases k with
      | zero => exact ⟨busy, by simp [pool_run]⟩
      | succ k =>
        obtain ⟨bk, hbk⟩ := ih b1 b2 h k
        exact ⟨bk, by simp [pool_run, hs, hbk]⟩

theorem pool_run_count (tr : List Ev) :
    ∀ busy b2 : List (Option Nat), pool_run busy tr = some b2 →
      (started_tids tr).length + busy_count busy
        = (finished_tids tr).length + busy_count b2 := by
  induction tr with
  | nil =>
    intro busy b2 h
    simp [pool_run] at h
    subst h
    simp [started_tids, finished_tids]
  | cons e tr ih =>
    intro busy b2 h
    cases e with
    | start w tid =>
      cases hg : busy[w]? with
      | none => simp [pool_run, pool_step, hg] at h
      | some o =>
        cases o with
        | none =>
          simp [pool_run, pool_step, hg] at h
          have hih := ih (busy.set w (some tid)) b2 h
          have hbc := busy_count_set_some busy w tid hg
          have hst : (started_tids (Ev.start w tid :: tr)).length
              = (started_tids tr).length + 1 := by
            simp [started_tids, List.filterMap_cons]
          have hfin : (finished_tids (Ev.start w tid :: tr)).length
              = (finished_tids tr).length := by
            simp [finished_tids, List.filterMap_cons]
          omega
        | some t => simp [pool_run, pool_step, hg] at h
    | finish w tid =>
      cases hg : busy[w]? with
      | none => simp [pool_run, pool_step, hg] at h
      | some o =>
        cases o with
        | none => simp [pool_run, pool_step, hg] at h
        | some t =>
          by_cases ht : t = tid
          · simp [pool_run, pool_step, hg, ht] at h
            have hih := ih (busy.set w none) b2 h
            have hbc := busy_count_set_none busy w tid (ht ▸ hg)
            have hst : (started_tids (Ev.finish w tid :: tr)).length
                = (started_tids tr).length := by
              simp [started_tids, List.filterMap_cons]
            have hfin : (finished_tids (Ev.finish w tid :: tr)).length
                = (finished_tids tr).length + 1 := by
              simp [finished_tids, List.filterMap_cons]
            omega
          · simp [pool_run, pool_step, hg, ht] at h

/-- C4 counterexample: the trace start-0, finish-0, start-1 is a valid
execution of a pool with max-concurrency 1, yet afterwards the global
`subprocesses` registry holds 2 entries — `subprocesses.append(process)`
(crawl.py line 71) is never undone, so finished transfers are not
deregistered and the registry exceeds max-concurrency. -/
theorem inflight_registry_counterexample :
    pool_trace 1 [Ev.start 0 0, Ev.finish 0 0, Ev.start 0 1]
    ∧ (registry [Ev.start 0 0, Ev.finish 0 0, Ev.start 0 1]).length = 2
    ∧ ¬ (registry [Ev.start 0 0, Ev.finish 0 0, Ev.start 0 1]).length ≤ 1 := by
  refine ⟨by unfold pool_trace; rfl, by decide, by decide⟩

/-- C4 amended: workers register handles in the registry at transfer start but
never deregister them, so the registry's total size can exceed max-concurrency;
what is bounded is the in-flight portion: in every valid trace of an n-worker
pool, at every instant, at most n started transfers are not yet finished. -/
theorem inflight_running_bound (n : Nat) (tr : List Ev) (h : pool_trace n tr) :
    ∀ k : Nat, running_count (tr.take k) ≤ n := by
  intro k
  obtain ⟨b2, hb2⟩ := Option.isSome_iff_exists.mp h
  obtain ⟨bk, hbk⟩ := pool_run_take tr _ b2 hb2 k
  have hcount := pool_run_count (tr.take k) _ bk hbk
  have hzero : busy_count (List.replicate n none) = 0 := busy_count_replicate n
  have hlen : bk.length = n := by
    simpa using pool_run_length (tr.take k) _ bk hbk
  have hle : busy_count bk ≤ n := by
    have := busy_count_le bk
    omega
  unfold running_count
  omega

/-- Witness for `inflight_running_bound` on the three-event trace above. -/
theorem inflight_running_bound_witness :
    running_count ([Ev.start 0 0, Ev.finish 0 0, Ev.start 0 1].take 3) ≤ 1 :=
  inflight_running_bound 1 [Ev.start 0 0, Ev.finish 0 0, Ev.start 0 1]
    (by unfold pool_trace; rfl) 3

/-- C6: on SIGINT/SIGTERM the handler stops every subprocess and exits with
status 0: a still-running process is terminated gracefully when it dies within
the 5-second grace period and force-killed otherwise; an already-finished
process is left alone; afterwards no process is running. -/
theorem signal_handler_graceful_shutdown (ps : List Proc) :
    (signal_handler ps).2 = 0
    ∧ (∀ q ∈ (signal_handler ps).1, q.running = false)
    ∧ (∀ p ∈ ps, p.running = true → p.terminate_delay ≤ grace_period →
        stop_action p = StopAction.terminated)
    ∧ (∀ p ∈ ps, p.running = true → grace_period < p.terminate_delay →
        stop_action p = StopAction.killed)
    ∧ (∀ p ∈ ps, p.running = false → stop_action p = StopAction.noAction) := by
  refine ⟨rfl, ?_, ?_, ?_, ?_⟩
  · intro q hq
    simp [signal_handler, stop_all_subprocesses] at hq
    obtain ⟨p, hp, rfl⟩ := hq
    by_cases h : p.running <;> simp [stop_proc, h]
  · intro p _ hr hd
    simp [stop_action, hr, hd]
  · intro p _ hr hd
    simp [stop_action, hr, Nat.not_le.mpr hd]
  · intro p _ hr
    simp [stop_action, hr]

/-- Witness for `signal_handler_graceful_shutdown` on a registry holding one
running process that ignores terminate for 7 seconds: it gets killed, and the
handler exits 0. -/
theorem signal_handler_graceful_shutdown_witness :
    (signal_handler [Proc.mk true 7]).2 = 0
    ∧ stop_action (Proc.mk true 7) = StopAction.killed :=
  ⟨(signal_handler_graceful_shutdown [Proc.mk true 7]).1,
   (signal_handler_graceful_shutdown [Proc.mk true 7]).2.2.2.1
     (Proc.mk true 7) (by decide) rfl (by decide)⟩

mutual
theorem node_error_of_bad : ∀ (remote_dir : List Char) (n : RemoteNode),
    node_has_bad_dir n = true → ∃ e, walk_node remote_dir n = Except.error e
  | rd, RemoteNode.file name size => by
    intro h
    simp [node_has_bad_dir] at h
  | rd, RemoteNode.dir name ok children => by
    intro h
    simp [node_has_bad_dir] at h
    by_cases hok : ok
    · have hbad : forest_has_bad_dir children = true := by
        rcases h with h | h
        · simp [h] at hok
        · exact h
      obtain ⟨e, he⟩ := forest_error_of_bad (py_path_join rd name) children hbad
      exact ⟨e, by simp [walk_node, hok, he]⟩
    · exact ⟨py_path_join rd name, by simp [walk_node, hok]⟩

theorem forest_error_of_bad : ∀ (remote_dir : List Char) (ns : RemoteForest),
    forest_has_bad_dir ns = true → ∃ e, walk_forest remote_dir ns = Except.error e
  | rd, RemoteForest.nil => by
    intro h
    simp [forest_has_bad_dir] at h
  | rd, RemoteForest.cons n ns => by
    intro h
    simp [forest_has_bad_dir] at h
    rcases h with h | h
    · obtain ⟨e, he⟩ := node_error_of_bad rd n h
      exact ⟨e, by simp [walk_forest, he]⟩
    · cases hn : walk_node rd n with
      | error e => exact ⟨e, by simp [walk_forest, hn]⟩
      | ok ts =>
        obtain ⟨e, he⟩ := forest_error_of_bad rd ns h
        exact ⟨e, by simp [walk_forest, hn, he]⟩
end

/-- C7: a listing error raised anywhere in the traversed tree propagates
unconditionally out of the recursion: the pass yields no task list at all,
`main`'s except-branch stops every in-flight transfer, and the error is
re-raised for an exception exit. -/
theorem listing_error_aborts_pass (remote_dir : List Char) (root : RemoteRoot)
    (procs : List Proc)
    (h : root.ok = false ∨ forest_has_bad_dir root.children = true) :
    ∃ e, main_ftp remote_dir root procs
        = (Except.error e, stop_all_subprocesses procs)
      ∧ ∀ q ∈ (main_ftp remote_dir root procs).2, q.running = false := by
  have herr : ∃ e, ftp_walk remote_dir root = Except.error e := by
    rcases h with h | h
    · exact ⟨remote_dir, by simp [ftp_walk, h]⟩
    · by_cases hok : root.ok
      · obtain ⟨e, he⟩ := forest_error_of_bad remote_dir root.children h
        exact ⟨e, by simp [ftp_walk, hok, he]⟩
      · exact ⟨remote_dir, by simp [ftp_walk, hok]⟩
  obtain ⟨e, he⟩ := herr
  refine ⟨e, by simp [main_ftp, he], ?_⟩
  intro q hq
  simp [main_ftp, he, stop_all_subprocesses] at hq
  obtain ⟨p, hp, rfl⟩ := hq
  by_cases hr : p.running <;> simp [stop_proc, hr]

/-- Witness for `listing_error_aborts_pass`: a root that lists fine but has one
unlistable subdirectory, with one running transfer in the registry. -/
theorem listing_error_aborts_pass_witness :
    ∃ e, main_ftp "r".data
        (RemoteRoot.mk true
          (RemoteForest.cons (RemoteNode.dir "b".data false RemoteForest.nil)
            RemoteForest.nil))
        [Proc.mk true 2]
        = (Except.error e, stop_all_subprocesses [Proc.mk true 2])
      ∧ ∀ q ∈ (main_ftp "r".data
          (RemoteRoot.mk true
            (RemoteForest.cons (RemoteNode.dir "b".data false RemoteForest.nil)
              RemoteForest.nil))
          [Proc.mk true 2]).2, q.running = false :=
  listing_error_aborts_pass "r".data
    (RemoteRoot.mk true
      (RemoteForest.cons (RemoteNode.dir "b".data false RemoteForest.nil)
        RemoteForest.nil))
    [Proc.mk true 2] (Or.inr rfl)

/-- C8: a nonzero aria2c exit code makes the task terminal with status Failed;
the pass still runs every submitted task exactly once — the task list of the
results is exactly the walk's submission list, whatever the exit codes are, so
per-file failures neither abort the walk nor cause a requeue. -/
theorem transfer_failure_isolated (exit_code : STask → Int) (remote_dir : List Char)
    (root : RemoteRoot) (ts : List STask)
    (h : ftp_walk remote_dir root = Except.ok ts) :
    run_pass exit_code remote_dir root
        = Except.ok (ts.map fun t => (t, task_status (exit_code t)))
    ∧ (ts.map fun t => (t, task_status (exit_code t))).map Prod.fst = ts
    ∧ ∀ t : STask, exit_code t ≠ 0 → task_status (exit_code t) = TStatus.Failed := by
  refine ⟨by simp [run_pass, h, Except.map], ?_, ?_⟩
  · have hcomp : (Prod.fst ∘ fun t : STask => (t, task_status (exit_code t))) = id := rfl
    simp [hcomp]
  · intro t ht
    simp [task_status, ht]

/-- Witness for `transfer_failure_isolated`: one file whose transfer exits 1;
it is recorded as Failed and the pass result is intact. -/
theorem transfer_failure_isolated_witness :
    run_pass (fun _ => 1) "r".data
        (RemoteRoot.mk true
          (RemoteForest.cons (RemoteNode.file "a".data 1) RemoteForest.nil))
      = Except.ok [(STask.mk "r/a".data 1, TStatus.Failed)] := by
  have h := transfer_failure_isolated (fun _ => 1) "r".data
    (RemoteRoot.mk true
      (RemoteForest.cons (RemoteNode.file "a".data 1) RemoteForest.nil))
    [STask.mk "r/a".data 1] rfl
  simpa [task_status] using h.1

theorem precedes_split (e1 e2 : PhEv) (l1 l2 : List PhEv)
    (h1 : e1 ∈ l1) (h2 : e2 ∈ l2) : Precedes e1 e2 (l1 ++ l2) := by
  obtain ⟨i, hi⟩ := List.getElem?_of_mem h1
  obtain ⟨j, hj⟩ := List.getElem?_of_mem h2
  have hilen : i < l1.length := by
    by_contra hge
    rw [List.getElem?_eq_none (Nat.le_of_not_lt hge)] at hi
    cases hi
  have hgi : (l1 ++ l2)[i]? = some e1 := by
    rw [List.getElem?_append_left hilen]
    exact hi
  have hgj : (l1 ++ l2)[l1.length + j]? = some e2 := by
    rw [List.getElem?_append_right (Nat.le_add_right _ _)]
    simpa using hj
  exact ⟨i, l1.length + j, by omega, hgi, hgj⟩

theorem precedes_append_left (e1 e2 : PhEv) (l1 l : List PhEv)
    (h : Precedes e1 e2 l) : Precedes e1 e2 (l1 ++ l) := by
  obtain ⟨i, j, hij, hi, hj⟩ := h
  have hgi : (l1 ++ l)[l1.length + i]? = some e1 := by
    rw [List.getElem?_append_right (Nat.le_add_right _ _)]
    simpa using hi
  have hgj : (l1 ++ l)[l1.length + j]? = some e2 := by
    rw [List.getElem?_append_right (Nat.le_add_right _ _)]
    simpa using hj
  exact ⟨l1.length + i, l1.length + j, by omega, hgi, hgj⟩

theorem precedes_append_right (e1 e2 : PhEv) (l l2 : List PhEv)
    (h : Precedes e1 e2 l) : Precedes e1 e2 (l ++ l2) := by
  obtain ⟨i, j, hij, hi, hj⟩ := h
  have hjlen : j < l.length := by
    by_contra hge
    rw [List.getElem?_eq_none (Nat.le_of_not_lt hge)] at hj
    cases hj
  have hgi : (l ++ l2)[i]? = some e1 := by
    rw [List.getElem?_append_left (Nat.lt_trans hij hjlen)]
    exact hi
  have hgj : (l ++ l2)[j]? = some e2 := by
    rw [List.getElem?_append_left hjlen]
    exact hj
  exact ⟨i, j, hij, hgi, hgj⟩

theorem flatten_precedes_within (L : List (List PhEv)) (p : Nat) (seg : List PhEv)
    (e1 e2 : PhEv) (hseg : L[p]? = some seg) (h : Precedes e1 e2 seg) :
    Precedes e1 e2 L.flatten := by
  have hplen : p < L.length := by
    by_contra hge
    rw [List.getElem?_eq_none (Nat.le_of_not_lt hge)] at hseg
    cases hseg
  have hgp : L[p] = seg := by
    rw [List.getElem?_eq_getElem hplen] at hseg
    exact Option.some.inj hseg
  have hdrop : L.drop p = seg :: L.drop (p + 1) := by
    rw [List.drop_eq_getElem_cons hplen, hgp]
  have h1 : Precedes e1 e2 (L.drop p).flatten := by
    rw [hdrop, List.flatten_cons]
    exact precedes_append_right _ _ _ _ h
  have h2 : Precedes e1 e2 ((L.take p).flatten ++ (L.drop p).flatten) :=
    precedes_append_left _ _ _ _ h1
  rw [← List.flatten_append, List.take_append_drop] at h2
  exact h2

theorem flatten_precedes_across (L : List (List PhEv)) (p q : Nat) (seg1 seg2 : List PhEv)
    (e1 e2 : PhEv) (h1 : L[p]? = some seg1) (h2 : L[q]? = some seg2) (hpq : p < q)
    (hm1 : e1 ∈ seg1) (hm2 : e2 ∈ seg2) : Precedes e1 e2 L.flatten := by
  have hqlen : q < L.length := by
    by_contra hge
    rw [List.getElem?_eq_none (Nat.le_of_not_lt hge)] at h2
    cases h2
  have hgq : L[q] = seg2 := by
    rw [List.getElem?_eq_getElem hqlen] at h2
    exact Option.some.inj h2
  have hdrop : L.drop q = seg2 :: L.drop (q + 1) := by
    rw [List.drop_eq_getElem_cons hqlen, hgq]
  have hmem1 : e1 ∈ (L.take q).flatten := by
    refine List.mem_flatten.mpr ⟨seg1, ?_, hm1⟩
    refine List.getElem?_mem (n := p) ?_
    rw [List.getElem?_take_of_lt hpq]
    exact h1
  have hmem2 : e2 ∈ (L.drop q).flatten := by
    rw [hdrop, List.flatten_cons]
    exact List.mem_append_left _ hm2
  have hp := precedes_split e1 e2 _ _ hmem1 hmem2
  rw [← List.flatten_append, List.take_append_drop] at hp
  exact hp

/-- C5: in the watch-loop trace, every task submitted during pass `p` — whose
executor is created for that pass alone — has reached its terminal state before
pass `p`'s sleep and before pass `p+1` begins: no task of pass `p` is still
running when pass `p+1` starts. -/
theorem pass_barrier (inners : List (List PhEv)) (p tid : Nat) (inner : List PhEv)
    (hp : inners[p]? = some inner)
    (hcomp : pass_complete inner = true)
    (hmem : PhEv.submitTask p tid ∈ inner)
    (hnext : p + 1 < inners.length) :
    ∃ failed : Bool,
      Precedes (PhEv.taskEnd p tid failed) (PhEv.sleepEv p) (watch_trace inners)
      ∧ Precedes (PhEv.taskEnd p tid failed) (PhEv.passStart (p + 1))
          (watch_trace inners) := by
  have hany : inner.any (is_end_for p tid) = true :=
    List.all_eq_true.mp hcomp _ hmem
  obtain ⟨e, he, hise⟩ := List.any_eq_true.mp hany
  obtain ⟨failed, rfl⟩ : ∃ f : Bool, e = PhEv.taskEnd p tid f := by
    cases e with
    | taskEnd q t f =>
      simp [is_end_for] at hise
      exact ⟨f, by rw [hise.1, hise.2]⟩
    | passStart q => simp [is_end_for] at hise
    | submitTask q t => simp [is_end_for] at hise
    | sleepEv q => simp [is_end_for] at hise
  have hseg : (inners.enum.map fun pe => pass_segment pe.1 pe.2)[p]?
      = some (pass_segment p inner) := by
    simp [List.enum, hp]
  obtain ⟨inner2, hp2⟩ : ∃ i2, inners[p + 1]? = some i2 :=
    ⟨_, List.getElem?_eq_getElem hnext⟩
  have hseg2 : (inners.enum.map fun pe => pass_segment pe.1 pe.2)[p + 1]?
      = some (pass_segment (p + 1) inner2) := by
    simp [List.enum, hp2]
  have hmemseg : PhEv.taskEnd p tid failed ∈ pass_segment p inner :=
    List.mem_cons_of_mem _ (List.mem_append_left _ he)
  refine ⟨failed, ?_, ?_⟩
  · refine flatten_precedes_within _ p (pass_segment p inner) _ _ hseg ?_
    have hshape : pass_segment p inner
        = (PhEv.passStart p :: inner) ++ [PhEv.sleepEv p] := rfl
    rw [hshape]
    exact precedes_split _ _ _ _ (List.mem_cons_of_mem _ he) (by simp)
  · refine flatten_precedes_across _ p (p + 1) (pass_segment p inner)
      (pass_segment (p + 1) inner2) _ _ hseg hseg2 (Nat.lt_succ_self p) hmemseg ?_
    exact List.mem_cons_self _ _

/-- Witness for `pass_barrier`: two passes; pass 0 submits task 5 and its
terminal event is inside the pass, before the sleep and before pass 1. -/
theorem pass_barrier_witness :
    ∃ failed : Bool,
      Precedes (PhEv.taskEnd 0 5 failed) (PhEv.sleepEv 0)
        (watch_trace [[PhEv.submitTask 0 5, PhEv.taskEnd 0 5 false], []])
      ∧ Precedes (PhEv.taskEnd 0 5 failed) (PhEv.passStart 1)
        (watch_trace [[PhEv.submitTask 0 5, PhEv.taskEnd 0 5 false], []]) :=
  pass_barrier [[PhEv.submitTask 0 5, PhEv.taskEnd 0 5 false], []] 0 5
    [PhEv.submitTask 0 5, PhEv.taskEnd 0 5 false]
    rfl (by decide) (by decide) (by decide)
